import Mathlib

/-! Verification development for the paratensor pallet
    (pallets/paratensor/src/lib.rs).

    The pallet's storage items are embedded as an explicit state record of
    association lists (substrate `StorageMap`/`StorageDoubleMap` with
    `ValueQuery` semantics: a missing key reads as the declared default).
    The dispatchables are translated directly from the source: in the
    source every dispatchable body is a stub that returns `Ok(())`, except
    `sudo_set_emission_ratio`, which consults the stubbed
    `calculate_emission_ratio_sum` (constant `0`).  Machine integers
    (u16/u32/u64/u128) are modelled as `Nat`; no arithmetic here can
    overflow its source width (the only addition is `0 + ratio` on u16
    inputs). -/

set_option linter.unusedVariables false

namespace Paratensor

/-- First-match lookup in an association list with a default value:
the read semantics of a substrate `ValueQuery` storage map. -/
def aget {α β : Type} [DecidableEq α] (m : List (α × β)) (k : α) (d : β) : β :=
  match m with
  | [] => d
  | (k', v) :: rest => if k = k' then v else aget rest k d

/-- Key-membership test of an association list: substrate `contains_key`. -/
def acontains {α β : Type} [DecidableEq α] (m : List (α × β)) (k : α) : Bool :=
  match m with
  | [] => false
  | (k', _) :: rest => if k = k' then true else acontains rest k

/-- Insert/overwrite a key: substrate `insert`.  Prepending shadows any
older binding for the same key under first-match lookup. -/
def ainsert {α β : Type} [DecidableEq α] (m : List (α × β)) (k : α) (v : β) :
    List (α × β) :=
  (k, v) :: m

/-- Remove every binding of a key: substrate `remove`. -/
def aerase {α β : Type} [DecidableEq α] (m : List (α × β)) (k : α) :
    List (α × β) :=
  List.filter (fun p => decide (p.1 ≠ k)) m

/-- `NeuronMetadata<AccountId>` from the source, with `AccountId` modelled
as `Nat` (the all-zero decoded default account is `0`). -/
structure NeuronMetadata where
  version : Nat
  ip : Nat
  port : Nat
  ip_type : Nat
  uid : Nat
  modality : Nat
  hotkey : Nat
  coldkey : Nat
  active : Nat
  last_update : Nat
  priority : Nat
  stake : Nat
  rank : Nat
  trust : Nat
  consensus : Nat
  incentive : Nat
  dividends : Nat
  emission : Nat
  bonds : List (Nat × Nat)
  weights : List (Nat × Nat)
deriving DecidableEq

/-- The pallet storage: one field per `#[pallet::storage]` item of the
source, in source order.  Single maps are association lists keyed by the
source key type; double maps are keyed by the pair of keys. -/
structure PalletState where
  globalN : Nat
  totalStake : Nat
  totalIssuance : Nat
  blocksPerStep : Nat
  emissionRatio : List (Nat × Nat)
  neurons : List (Nat × NeuronMetadata)
  stake : List (Nat × Nat)
  coldkeys : List (Nat × Nat)
  hotkeys : List (Nat × Nat)
  minAllowedWeights : List (Nat × Nat)
  maxAllowedMaxMinRatio : List (Nat × Nat)
  tempo : List (Nat × Nat)
  subnetworkN : List (Nat × Nat)
  keys : List ((Nat × Nat) × Nat)
  uids : List ((Nat × Nat) × Nat)
  weights : List ((Nat × Nat) × List (Nat × Nat))
  bonds : List ((Nat × Nat) × List (Nat × Nat))
  active : List (Nat × List Bool)
  S : List (Nat × List Nat)
  rank : List (Nat × List Nat)
  trust : List (Nat × List Nat)
  incentive : List (Nat × List Nat)
  consensus : List (Nat × List Nat)
  dividends : List (Nat × List Nat)
  emission : List (Nat × List Nat)
deriving DecidableEq

/-- The genesis storage of the pallet: every map empty, every value its
default (numeric defaults abstracted to `0`). -/
def emptyState : PalletState :=
  ⟨0, 0, 0, 0, [], [], [], [], [], [], [], [], [], [], [], [], [], [], [],
   [], [], [], [], [], []⟩

/-- The `Error<T>` enum of the source. -/
inductive PalletError where
  | NoneValue
  | StorageOverflow
  | NotRegistered
  | NonAssociatedColdKey
  | NotEnoughStaketoWithdraw
  | NotEnoughBalanceToStake
  | BalanceWithdrawalError
  | WeightVecNotEqualSize
  | DuplicateUids
  | InvalidUid
  | NotSettingEnoughWeights
  | MaxAllowedMaxMinRatioExceeded
deriving DecidableEq

/-- `DispatchResult`: `Ok(())` or a pallet error. -/
inductive DispatchResult where
  | ok
  | err (e : PalletError)
deriving DecidableEq

/-- `set_weights` as written in the source: the body is `Ok(())` (the
call to `do_set_weights` is commented out), so every argument is ignored
and the state is untouched. -/
def set_weights (origin netuid : Nat) (dests wvals : List Nat)
    (st : PalletState) : DispatchResult × PalletState :=
  (DispatchResult.ok, st)

/-- `add_stake` as written in the source: the body is `Ok(())` (the call
to `do_add_stake` is commented out). -/
def add_stake (origin hotkey ammount_staked : Nat) (st : PalletState) :
    DispatchResult × PalletState :=
  (DispatchResult.ok, st)

/-- `remove_stake` as written in the source: the body is `Ok(())` (the
call to `do_remove_stake` is commented out, marked `TO DO`). -/
def remove_stake (origin hotkey ammount_unstaked : Nat) (st : PalletState) :
    DispatchResult × PalletState :=
  (DispatchResult.ok, st)

/-- `serve_axon` as written in the source: the body is `Ok(())`, marked
`TO DO`. -/
def serve_axon (origin version ip port ip_type modality : Nat)
    (st : PalletState) : DispatchResult × PalletState :=
  (DispatchResult.ok, st)

/-- `register` as written in the source: the body is `Ok(())`, marked
`TO DO`; no uid is allocated and no storage is touched. -/
def register (origin block_number nonce : Nat) (work : List Nat)
    (hotkey coldkey netuid : Nat) (st : PalletState) :
    DispatchResult × PalletState :=
  (DispatchResult.ok, st)

/-- `sudo_set_blocks_per_step` as written in the source: the body is
`Ok(())`, marked `TO DO`. -/
def sudo_set_blocks_per_step (origin blocks_per_step : Nat)
    (st : PalletState) : DispatchResult × PalletState :=
  (DispatchResult.ok, st)

/-- `calculate_emission_ratio_sum` as written in the source: the body is
`let sum: u16 = 0; sum` (marked `TO DO`): it never reads `EmissionRatio`
and returns `0` unconditionally. -/
def calculate_emission_ratio_sum (st : PalletState) : Nat :=
  0

/-- `sudo_set_emission_ratio` as written in the source: when
`calculate_emission_ratio_sum() + ratio > 1` the then-branch is empty
(only a `we should return error, TO DO` comment) and control falls
through to `Ok(())`; otherwise the ratio is inserted.  Both paths
return `Ok(())`. -/
def sudo_set_emission_ratio (origin netuid subnet_emission_ratio : Nat)
    (st : PalletState) : DispatchResult × PalletState :=
  if calculate_emission_ratio_sum st + subnet_emission_ratio > 1 then
    (DispatchResult.ok, st)
  else
    (DispatchResult.ok,
     { st with emissionRatio :=
         ainsert st.emissionRatio netuid subnet_emission_ratio })

/-- `Uids` lookup (`ValueQuery`, default `DefaultUid = 0`): the uid the
pallet reads for a hotkey on a subnetwork. -/
def uid_lookup (st : PalletState) (netuid hotkey : Nat) : Nat :=
  aget st.uids (netuid, hotkey) 0

/-- `Keys` lookup (`ValueQuery`, default `DefaultKey` = the zero-decoded
account, modelled as `0`): the hotkey the pallet reads for a uid on a
subnetwork. -/
def key_lookup (st : PalletState) (netuid uid : Nat) : Nat :=
  aget st.keys (netuid, uid) 0

/-- A key that is not in the map reads as the default value. -/
theorem aget_default_of_not_contains {α β : Type} [DecidableEq α] :
    ∀ (m : List (α × β)) (k : α) (d : β),
      acontains m k = false → aget m k d = d := by
  intro m
  induction m with
  | nil => intro k d h; rfl
  | cons p rest ih =>
    intro k d h
    obtain ⟨k', v⟩ := p
    by_cases hk : k = k'
    · simp [acontains, hk] at h
    · simp only [aget, if_neg hk]
      simp only [acontains, if_neg hk] at h
      exact ih k d h

/-- Erasing one key leaves the lookup of every other key unchanged. -/
theorem aget_aerase_ne {α β : Type} [DecidableEq α] :
    ∀ (m : List (α × β)) (k k' : α) (d : β), k' ≠ k →
      aget (aerase m k) k' d = aget m k' d := by
  intro m
  induction m with
  | nil => intro k k' d hne; rfl
  | cons p rest ih =>
    intro k k' d hne
    obtain ⟨a, b⟩ := p
    by_cases hak : a = k
    · have h1 : aerase ((a, b) :: rest) k = aerase rest k := by
        simp [aerase, List.filter_cons, hak]
      rw [h1, ih k k' d hne, aget, if_neg (by exact fun h => hne (h ▸ hak))]
    · have h1 : aerase ((a, b) :: rest) k = (a, b) :: aerase rest k := by
        simp [aerase, List.filter_cons, hak]
      rw [h1, aget, aget]
      by_cases hk'a : k' = a
      · rw [if_pos hk'a, if_pos hk'a]
      · rw [if_neg hk'a, if_neg hk'a, ih k k' d hne]

/-- After erasing a key, that key is no longer in the map. -/
theorem acontains_aerase_self {α β : Type} [DecidableEq α] :
    ∀ (m : List (α × β)) (k : α), acontains (aerase m k) k = false := by
  intro m
  induction m with
  | nil => intro k; rfl
  | cons p rest ih =>
    intro k
    obtain ⟨a, b⟩ := p
    by_cases hak : a = k
    · have h1 : aerase ((a, b) :: rest) k = aerase rest k := by
        simp [aerase, List.filter_cons, hak]
      rw [h1]; exact ih k
    · have h1 : aerase ((a, b) :: rest) k = (a, b) :: aerase rest k := by
        simp [aerase, List.filter_cons, hak]
      rw [h1, acontains, if_neg (by exact fun h => hak h.symm)]
      exact ih k

/-- Erasing one key leaves the membership of every other key unchanged. -/
theorem acontains_aerase_ne {α β : Type} [DecidableEq α] :
    ∀ (m : List (α × β)) (k k' : α), k' ≠ k →
      acontains (aerase m k) k' = acontains m k' := by
  intro m
  induction m with
  | nil => intro k k' hne; rfl
  | cons p rest ih =>
    intro k k' hne
    obtain ⟨a, b⟩ := p
    by_cases hak : a = k
    · have h1 : aerase ((a, b) :: rest) k = aerase rest k := by
        simp [aerase, List.filter_cons, hak]
      rw [h1, ih k k' hne, acontains,
        if_neg (by exact fun h => hne (h ▸ hak))]
    · have h1 : aerase ((a, b) :: rest) k = (a, b) :: aerase rest k := by
        simp [aerase, List.filter_cons, hak]
      rw [h1, acontains, acontains]
      by_cases hk'a : k' = a
      · rw [if_pos hk'a, if_pos hk'a]
      · rw [if_neg hk'a, if_neg hk'a, ih k k' hne]

/-- Modelled from the spec: `deregister(netuid, uid)` — the source
declares no deregistration routine (spec §4.1 describes it; no such
function exists under src).  Per the spec it clears the slot (both the
`Keys` binding for the uid and the `Uids` binding for the slot's
hotkey), decrements `N`, and purges the uid from every other slot's
weight and bond rows in the same subnetwork. -/
def deregister (netuid uid : Nat) (st : PalletState) : PalletState :=
  { st with
    uids := aerase st.uids (netuid, key_lookup st netuid uid),
    keys := aerase st.keys (netuid, uid),
    subnetworkN :=
      ainsert st.subnetworkN netuid (aget st.subnetworkN netuid 0 - 1),
    weights := st.weights.map (fun p =>
      if p.1.1 = netuid then
        (p.1, p.2.filter (fun e => decide (e.1 ≠ uid)))
      else p),
    bonds := st.bonds.map (fun p =>
      if p.1.1 = netuid then
        (p.1, p.2.filter (fun e => decide (e.1 ≠ uid)))
      else p) }

/-- The round-trip law of the claim: for every hotkey present in `Uids`
on some subnetwork, looking up its uid and then that uid's hotkey
returns the original hotkey. -/
def inverse_law (st : PalletState) : Prop :=
  ∀ n h, acontains st.uids (n, h) = true →
    key_lookup st n (uid_lookup st n h) = h

/-- A state with one registered pair on subnetwork 0: hotkey `11` at
uid `0`, both directions recorded. -/
def regState : PalletState :=
  { emptyState with uids := [((0, 11), 0)], keys := [((0, 0), 11)] }

/-- C9: every dispatchable other than `sudo_set_emission_ratio` —
`set_weights`, `add_stake`, `remove_stake`, `serve_axon`, `register`,
`sudo_set_blocks_per_step` — returns `Ok` and leaves every storage item
unchanged, for every input and every starting state: they are total
no-ops that perform none of their documented validations or mutations. -/
theorem dispatchables_are_noops (o n bn nonce bps amt ver ip port iptype
    modality hk ck : Nat) (dests wvals work : List Nat) (st : PalletState) :
    set_weights o n dests wvals st = (DispatchResult.ok, st) ∧
    add_stake o hk amt st = (DispatchResult.ok, st) ∧
    remove_stake o hk amt st = (DispatchResult.ok, st) ∧
    serve_axon o ver ip port iptype modality st = (DispatchResult.ok, st) ∧
    register o bn nonce work hk ck n st = (DispatchResult.ok, st) ∧
    sudo_set_blocks_per_step o bps st = (DispatchResult.ok, st) :=
  ⟨rfl, rfl, rfl, rfl, rfl, rfl⟩

/-- C10: `sudo_set_emission_ratio` always returns `Ok`; because
`calculate_emission_ratio_sum` is the constant `0`, the guard reduces to
`ratio > 1`, so the ratio is inserted into `EmissionRatio[netuid]`
exactly when it is at most 1, and a ratio above 1 leaves the state
unchanged while still reporting success — for every starting state,
whatever ratios other subnetworks already store. -/
theorem sudo_set_emission_ratio_stub_spec (o n r : Nat) (st : PalletState) :
    sudo_set_emission_ratio o n r st =
      (DispatchResult.ok,
       if r ≤ 1 then
         { st with emissionRatio := ainsert st.emissionRatio n r }
       else st) := by
  unfold sudo_set_emission_ratio calculate_emission_ratio_sum
  rcases Nat.lt_or_ge 1 r with h | h
  · rw [if_pos (by omega), if_neg (by omega)]
  · rw [if_neg (by omega), if_pos (by omega)]

/-- C1: evaluation of `sudo_set_emission_ratio` at the failing inputs.
On the empty state, the call with ratio `2` (which would make the sum
exceed 1) returns `Ok` with no error — the source's then-branch holds
only a `we should return error` comment — and, because
`calculate_emission_ratio_sum` stubs to `0`, two successive calls
storing ratio `1` on subnetworks `0` and `1` both succeed and leave a
stored sum of `2 > 1`. -/
theorem sudo_set_emission_ratio_never_errors :
    sudo_set_emission_ratio 0 0 2 emptyState = (DispatchResult.ok, emptyState) ∧
    aget (sudo_set_emission_ratio 0 1 1
           (sudo_set_emission_ratio 0 0 1 emptyState).2).2.emissionRatio 0 0 +
      aget (sudo_set_emission_ratio 0 1 1
           (sudo_set_emission_ratio 0 0 1 emptyState).2).2.emissionRatio 1 0
      = 2 := by
  constructor
  · rfl
  · rfl

/-- C2: evaluation of `set_weights` at the failing input
`uids = [0, 1]`, `weights = [1]` (length mismatch): the call returns
`Ok`, not `Err(WeightVecNotEqualSize)`, because the body is a stub. -/
theorem set_weights_length_mismatch_ok :
    set_weights 0 0 [0, 1] [1] emptyState = (DispatchResult.ok, emptyState) ∧
    [(0 : Nat), 1].length ≠ [(1 : Nat)].length := by
  exact ⟨rfl, by decide⟩

/-- C3: evaluation of `remove_stake` at the failing input: hotkey `5`
has stake `0` in the empty state, yet removing `1 > 0` returns `Ok`,
not `Err(NotEnoughStaketoWithdraw)`, because the body is a stub. -/
theorem remove_stake_insufficient_ok :
    aget emptyState.stake 5 0 = 0 ∧
    remove_stake 0 5 1 emptyState = (DispatchResult.ok, emptyState) := by
  exact ⟨rfl, rfl⟩

/-- C4: evaluation of `add_stake` and `remove_stake` at the failing
input: in a state whose `Coldkeys` map records coldkey `9` for hotkey
`5`, the calls signed by key `7 ≠ 9` return `Ok`, not
`Err(NonAssociatedColdKey)`, because the bodies are stubs. -/
theorem stake_calls_ignore_coldkey :
    aget { emptyState with coldkeys := [(5, 9)] }.coldkeys 5 0 = 9 ∧
    (7 : Nat) ≠ 9 ∧
    add_stake 7 5 10 { emptyState with coldkeys := [(5, 9)] }
      = (DispatchResult.ok, { emptyState with coldkeys := [(5, 9)] }) ∧
    remove_stake 7 5 10 { emptyState with coldkeys := [(5, 9)] }
      = (DispatchResult.ok, { emptyState with coldkeys := [(5, 9)] }) := by
  exact ⟨rfl, by decide, rfl, rfl⟩

/-- C5: evaluation of `set_weights` at the failing input
`uids = [0, 0]` (duplicate target uid): the call returns `Ok`, not
`Err(DuplicateUids)`, because the body is a stub. -/
theorem set_weights_duplicate_uids_ok :
    set_weights 0 0 [0, 0] [1, 1] emptyState = (DispatchResult.ok, emptyState) ∧
    ¬ [(0 : Nat), 0].Nodup := by
  exact ⟨rfl, by decide⟩

/-- C6: the uid-to-hotkey / hotkey-to-uid round-trip law is preserved by
every `register` call (in the source a no-op stub that binds nothing)
and by every `deregister` (modelled from spec §4.1): if every registered
pair round-trips before the call, it still does immediately after. -/
theorem register_deregister_preserve_inverse (o bn nonce hk ck n du : Nat)
    (work : List Nat) (st : PalletState) (hinv : inverse_law st) :
    inverse_law (register o bn nonce work hk ck n st).2 ∧
    inverse_law (deregister n du st) := by
  refine ⟨hinv, ?_⟩
  intro n' h' hc
  have hc' : acontains (aerase st.uids (n, key_lookup st n du)) (n', h')
      = true := hc
  have hne : (n', h') ≠ (n, key_lookup st n du) := by
    intro he
    rw [he, acontains_aerase_self] at hc'
    exact Bool.false_ne_true hc'
  have hcontains : acontains st.uids (n', h') = true := by
    rw [acontains_aerase_ne st.uids _ _ hne] at hc'
    exact hc'
  have hu : uid_lookup (deregister n du st) n' h' = uid_lookup st n' h' := by
    show aget (aerase st.uids (n, key_lookup st n du)) (n', h') 0
        = aget st.uids (n', h') 0
    exact aget_aerase_ne st.uids _ _ 0 hne
  rw [hu]
  have hk' : key_lookup st n' (uid_lookup st n' h') = h' := hinv n' h' hcontains
  by_cases hcase : (n', uid_lookup st n' h') = (n, du)
  · exfalso
    have hn' : n' = n := congrArg Prod.fst hcase
    have hd : uid_lookup st n' h' = du := congrArg Prod.snd hcase
    apply hne
    rw [Prod.mk.injEq]
    refine ⟨hn', ?_⟩
    rw [← hn', ← hd]
    exact hk'.symm
  · show aget (aerase st.keys (n, du)) (n', uid_lookup st n' h') 0 = h'
    rw [aget_aerase_ne st.keys _ _ 0 hcase]
    exact hk'

/-- Witness for C6 at a concrete state: `regState` satisfies the
round-trip law, and it still holds after a `register` call and after
deregistering uid 3 on subnetwork 0. -/
theorem register_deregister_preserve_inverse_witness :
    inverse_law regState ∧
    (inverse_law (register 0 1 2 [] 7 8 0 regState).2 ∧
     inverse_law (deregister 0 3 regState)) := by
  have hinv : inverse_law regState := by
    intro n h hc
    have hpair : (n, h) = ((0 : Nat), (11 : Nat)) := by
      by_cases hp : (n, h) = ((0 : Nat), (11 : Nat))
      · exact hp
      · exfalso
        have : acontains regState.uids (n, h) = false := by
          show acontains [(((0 : Nat), (11 : Nat)), (0 : Nat))] (n, h) = false
          rw [acontains, if_neg hp]
          rfl
        rw [this] at hc
        exact Bool.false_ne_true hc
    have hn : n = 0 := congrArg Prod.fst hpair
    have hh : h = 11 := congrArg Prod.snd hpair
    rw [hn, hh]
    rfl
  exact ⟨hinv,
    register_deregister_preserve_inverse 0 1 2 7 8 0 3 [] regState hinv⟩

/-- C7 counterexample: in `regState`, hotkey `22` is unregistered on
subnetwork 0, yet `Uids` lookup returns `0` — exactly the value returned
for the genuinely registered hotkey `11`, and the uid of an occupied
slot — and `Keys` lookup of the vacant uid `5` returns the zero-decoded
default account `0` rather than a distinguishable not-found result. -/
theorem unregistered_lookup_counterexample :
    acontains regState.uids (0, 22) = false ∧
    uid_lookup regState 0 22 = 0 ∧
    acontains regState.keys (0, 0) = true ∧
    key_lookup regState 0 0 = 11 ∧
    uid_lookup regState 0 11 = 0 ∧
    acontains regState.keys (0, 5) = false ∧
    key_lookup regState 0 5 = 0 := by
  decide

/-- C7 amended: looking up a hotkey that is not registered in a
subnetwork returns the `ValueQuery` default uid `0` (and looking up a
vacant uid returns the zero-decoded default account `0`) — values
indistinguishable from a genuine slot-0 / zero-account binding; only the
map's containment check reports not-found. -/
theorem unregistered_lookup_default (st : PalletState) (n h u : Nat)
    (hu : acontains st.uids (n, h) = false)
    (hk : acontains st.keys (n, u) = false) :
    uid_lookup st n h = 0 ∧ key_lookup st n u = 0 :=
  ⟨aget_default_of_not_contains st.uids (n, h) 0 hu,
   aget_default_of_not_contains st.keys (n, u) 0 hk⟩

/-- Witness for the amended C7 at a concrete state: hotkey `22` and uid
`5` are absent from `regState`, and both lookups return `0`. -/
theorem unregistered_lookup_default_witness :
    uid_lookup regState 0 22 = 0 ∧ key_lookup regState 0 5 = 0 :=
  unregistered_lookup_default regState 0 22 5 (by decide) (by decide)

/-- The fixed-point scale of the spec's u16 fractions: `1.0` is the
maximum representable 16-bit value. -/
def fpScale : Nat := 65535

/-- Modelled from the spec: normalization of a vector to sum 1 in
fixed point (§4.3 step 1): the zero vector when the total is zero. -/
def normalize_vec (v : List Nat) : List Nat :=
  if v.sum = 0 then v.map (fun _ => 0)
  else v.map (fun x => x * fpScale / v.sum)

/-- The minimum nonzero entry of a row (defaulting to `fpScale` for an
all-zero row), used for the max/min ratio clip. -/
def min_nonzero (row : List Nat) : Nat :=
  List.foldr min fpScale (row.filter (fun x => decide (x ≠ 0)))

/-- Modelled from the spec: weight-row preparation (§4.3 step 2) — rows
with fewer nonzero entries than `MinAllowedWeights` are treated as
all-zero; otherwise entries are capped at `min * ratio` and the row is
renormalized. -/
def prep_row (minW maxMin : Nat) (row : List Nat) : List Nat :=
  if (row.filter (fun x => decide (x ≠ 0))).length < minW then
    row.map (fun _ => 0)
  else
    normalize_vec (row.map (fun x => min x (min_nonzero row * maxMin)))

/-- Dot product of two fixed-point vectors (truncating at the shorter). -/
def dotp (a b : List Nat) : Nat :=
  (List.zipWith (fun x y => x * y) a b).sum

/-- Modelled from the spec: the sigmoid-like consensus clip factor
(§4.3 step 5) — full weight above the trust threshold, proportional
below it (the exact shape is an open parameter in the spec; any clip
with `clip(0, t) = 0` yields the properties proved here). -/
def sigma_clip (thresh t : Nat) : Nat :=
  if thresh ≤ t then fpScale else t * fpScale / thresh

/-- One step of pure bond decay: the EMA with a zero increment. -/
def bond_decay (alpha b : Nat) : Nat :=
  (fpScale - alpha) * b / fpScale

/-- Modelled from the spec: the EMA bond update for one edge (§4.3 step
7) — a convex combination of the stake-weighted current endorsement
`S[i] * w[i][j]` and the previous bond; edges with no current
endorsement decay toward zero. -/
def ema_bond (alpha si b w : Nat) : Nat :=
  (alpha * (si * w / fpScale) + (fpScale - alpha) * b) / fpScale

/-- The EMA bond update for one row. -/
def ema_row (alpha si : Nat) (brow wrow : List Nat) : List Nat :=
  List.zipWith (ema_bond alpha si) brow wrow

/-- §4.3 step 3: `rank[j] = Σ_i S[i] * w[i][j]`, stake-weighted in-flow
of endorsement. -/
def epoch_rank (S : List Nat) (Wn : List (List Nat)) : List Nat :=
  (List.transpose Wn).map (fun col => dotp S col / fpScale)

/-- §4.3 step 4, denominator: the stake of endorsers whose weight to
`j` is nonzero. -/
def epoch_trust_denom (S : List Nat) (Wn : List (List Nat)) : List Nat :=
  (List.transpose Wn).map (fun col =>
    dotp S (col.map (fun w => if w = 0 then 0 else fpScale)) / fpScale)

/-- §4.3 step 4: trust as the ratio of rank to incoming endorsing
stake, zero when no stake endorses. -/
def epoch_trust (S : List Nat) (Wn : List (List Nat)) : List Nat :=
  List.zipWith (fun r d => if d = 0 then 0 else r * fpScale / d)
    (epoch_rank S Wn) (epoch_trust_denom S Wn)

/-- §4.3 step 5: consensus as trust-clipped rank. -/
def epoch_consensus (thresh : Nat) (rankv trustv : List Nat) : List Nat :=
  List.zipWith (fun r t => r * sigma_clip thresh t / fpScale) rankv trustv

/-- §4.3 step 7: the bond matrix update, row `i` smoothed with the
stake `S[i]` of its owner. -/
def epoch_bonds (alpha : Nat) (S : List Nat) (B Wn : List (List Nat)) :
    List (List Nat) :=
  List.zipWith (fun si pr => ema_row alpha si pr.1 pr.2) S (List.zip B Wn)

/-- §4.3 step 8: dividends `Σ_j bond[i][j] * incentive[j]`,
renormalized. -/
def epoch_dividends (bondsNew : List (List Nat)) (incentivev : List Nat) :
    List Nat :=
  normalize_vec (bondsNew.map (fun brow => dotp brow incentivev / fpScale))

/-- §4.3 step 9: per-uid emission, an even split between incentive and
dividend holders. -/
def epoch_emission (totE : Nat) (incentivev dividendsv : List Nat) :
    List Nat :=
  List.zipWith (fun i d => totE * i / (2 * fpScale) + totE * d / (2 * fpScale))
    incentivev dividendsv

/-- The vectors an epoch writes back for one subnetwork. -/
structure EpochOut where
  rank : List Nat
  trust : List Nat
  consensus : List Nat
  incentive : List Nat
  dividends : List Nat
  emission : List Nat
  bonds : List (List Nat)
deriving DecidableEq

/-- Modelled from the spec: the epoch engine `run_epoch(netuid)` of
§4.3 — `mod epoch` is declared in lib.rs but its file is not present in
the source tree.  Steps 1–9 over the materialized stake vector, weight
matrix and bond matrix of one subnetwork. -/
def run_epoch (minW maxMin alpha thresh totE : Nat) (stakeVec : List Nat)
    (W B : List (List Nat)) : EpochOut :=
  let S := normalize_vec stakeVec
  let Wn := W.map (prep_row minW maxMin)
  let rankv := epoch_rank S Wn
  let trustv := epoch_trust S Wn
  let consensusv := epoch_consensus thresh rankv trustv
  let incentivev := normalize_vec consensusv
  let bondsNew := epoch_bonds alpha S B Wn
  let dividendsv := epoch_dividends bondsNew incentivev
  ⟨rankv, trustv, consensusv, incentivev, dividendsv,
   epoch_emission totE incentivev dividendsv, bondsNew⟩

/-- A dot product whose left vector is all zeros is zero. -/
theorem dotp_zero_left : ∀ (l b : List Nat),
    dotp (l.map (fun _ => 0)) b = 0 := by
  intro l
  induction l with
  | nil => intro b; rfl
  | cons a as ih =>
    intro b
    cases b with
    | nil => rfl
    | cons y ys =>
      show dotp (0 :: as.map (fun _ => 0)) (y :: ys) = 0
      rw [dotp, List.zipWith_cons_cons, List.sum_cons]
      have h2 : (List.zipWith (fun x y => x * y) (as.map (fun _ => 0)) ys).sum
          = 0 := ih ys
      rw [h2, Nat.zero_mul]

/-- A dot product whose right vector has only zero entries is zero. -/
theorem dotp_zero_right : ∀ (a b : List Nat), (∀ y ∈ b, y = 0) →
    dotp a b = 0 := by
  intro a
  induction a with
  | nil => intro b hb; rfl
  | cons x xs ih =>
    intro b hb
    cases b with
    | nil => rfl
    | cons y ys =>
      rw [dotp, List.zipWith_cons_cons, List.sum_cons]
      have hy : y = 0 := hb y (List.mem_cons_self y ys)
      have h2 : (List.zipWith (fun x y => x * y) xs ys).sum = 0 :=
        ih ys (fun w hw => hb w (List.mem_cons_of_mem y hw))
      rw [h2, hy, Nat.mul_zero]

/-- A `zipWith` whose left entries are all zero, under a function that
kills a zero left argument, yields only zeros. -/
theorem zipWith_all_zero_left (f : Nat → Nat → Nat) (hf : ∀ y, f 0 y = 0) :
    ∀ (a b : List Nat), (∀ x ∈ a, x = 0) →
      ∀ z ∈ List.zipWith f a b, z = 0 := by
  intro a
  induction a with
  | nil => intro b ha z hz; simp at hz
  | cons x xs ih =>
    intro b ha z hz
    cases b with
    | nil => simp at hz
    | cons y ys =>
      rw [List.zipWith_cons_cons] at hz
      rcases List.mem_cons.mp hz with h1 | h1
      · have hx : x = 0 := ha x (List.mem_cons_self x xs)
        rw [h1, hx, hf]
      · exact ih ys (fun w hw => ha w (List.mem_cons_of_mem x hw)) z h1

/-- Normalizing a vector of zeros yields only zeros. -/
theorem normalize_vec_zero_of_all_zero (v : List Nat)
    (h : ∀ x ∈ v, x = 0) : ∀ x ∈ normalize_vec v, x = 0 := by
  have hs : v.sum = 0 := List.sum_eq_zero h
  intro x hx
  rw [normalize_vec, if_pos hs] at hx
  obtain ⟨y, _, hxy⟩ := List.mem_map.mp hx
  exact hxy.symm

/-- Normalization preserves vector length. -/
theorem normalize_vec_length (v : List Nat) :
    (normalize_vec v).length = v.length := by
  rw [normalize_vec]
  split <;> simp

/-- Weight-row preparation preserves row length. -/
theorem prep_row_length (minW maxMin : Nat) (row : List Nat) :
    (prep_row minW maxMin row).length = row.length := by
  rw [prep_row]
  split
  · simp
  · rw [normalize_vec_length, List.length_map]

/-- With zero stake the rank vector is all zeros. -/
theorem epoch_rank_zero (sv : List Nat) (Wn : List (List Nat)) :
    ∀ x ∈ epoch_rank (sv.map (fun _ => 0)) Wn, x = 0 := by
  intro x hx
  obtain ⟨col, _, hcol⟩ := List.mem_map.mp hx
  rw [← hcol, dotp_zero_left, Nat.zero_div]

/-- With zero rank the consensus vector is all zeros. -/
theorem epoch_consensus_zero (thresh : Nat) (rankv trustv : List Nat)
    (h : ∀ x ∈ rankv, x = 0) :
    ∀ x ∈ epoch_consensus thresh rankv trustv, x = 0 :=
  zipWith_all_zero_left _
    (fun t => by rw [Nat.zero_mul, Nat.zero_div]) rankv trustv h

/-- With zero incentive the dividends vector is all zeros. -/
theorem epoch_dividends_zero (bn : List (List Nat)) (inc : List Nat)
    (h : ∀ x ∈ inc, x = 0) : ∀ x ∈ epoch_dividends bn inc, x = 0 := by
  apply normalize_vec_zero_of_all_zero
  intro x hx
  obtain ⟨brow, _, hb⟩ := List.mem_map.mp hx
  rw [← hb, dotp_zero_right brow inc h, Nat.zero_div]

/-- With zero stake the EMA update of a bond row is pure decay. -/
theorem ema_row_zero (alpha : Nat) : ∀ (brow wrow : List Nat),
    brow.length ≤ wrow.length →
    ema_row alpha 0 brow wrow = brow.map (bond_decay alpha) := by
  intro brow
  induction brow with
  | nil => intro wrow h; rfl
  | cons b bs ih =>
    intro wrow h
    cases wrow with
    | nil => simp at h
    | cons w ws =>
      show List.zipWith (ema_bond alpha 0) (b :: bs) (w :: ws)
          = (b :: bs).map (bond_decay alpha)
      rw [List.zipWith_cons_cons, List.map_cons]
      congr 1
      · show (alpha * (0 * w / fpScale) + (fpScale - alpha) * b) / fpScale
            = bond_decay alpha b
        rw [Nat.zero_mul, Nat.zero_div, Nat.mul_zero, Nat.zero_add,
          bond_decay]
      · exact ih ws (by simpa using h)

/-- With zero stake the whole bond matrix update is pure decay. -/
theorem epoch_bonds_zero (alpha : Nat) : ∀ (sv : List Nat)
    (B W : List (List Nat)), B.length = sv.length → W.length = sv.length →
    (∀ p ∈ List.zip B W, p.1.length ≤ p.2.length) →
    epoch_bonds alpha (sv.map (fun _ => 0)) B W
      = B.map (List.map (bond_decay alpha)) := by
  intro sv
  induction sv with
  | nil =>
    intro B W hB hW hr
    have hBnil : B = [] := by
      cases B with
      | nil => rfl
      | cons b bs => simp at hB
    rw [hBnil]
    rfl
  | cons s ss ih =>
    intro B W hB hW hr
    cases B with
    | nil => simp at hB
    | cons brow Bs =>
      cases W with
      | nil => simp at hW
      | cons wrow Ws =>
        have hmem : (brow, wrow) ∈ List.zip (brow :: Bs) (wrow :: Ws) := by
          rw [List.zip_cons_cons]
          exact List.mem_cons_self (brow, wrow) (List.zip Bs Ws)
        have hhead : ema_row alpha 0 brow wrow
            = brow.map (bond_decay alpha) :=
          ema_row_zero alpha brow wrow (hr (brow, wrow) hmem)
        have htail : ∀ p ∈ List.zip Bs Ws, p.1.length ≤ p.2.length := by
          intro p hp
          apply hr p
          rw [List.zip_cons_cons]
          exact List.mem_cons_of_mem (brow, wrow) hp
        have hrest : epoch_bonds alpha (ss.map (fun _ => 0)) Bs Ws
            = Bs.map (List.map (bond_decay alpha)) :=
          ih Bs Ws (by simpa using hB) (by simpa using hW) htail
        show List.zipWith (fun si pr => ema_row alpha si pr.1 pr.2)
            (0 :: ss.map (fun _ => 0))
            (List.zip (brow :: Bs) (wrow :: Ws))
          = (brow :: Bs).map (List.map (bond_decay alpha))
        rw [List.zip_cons_cons, List.zipWith_cons_cons, List.map_cons]
        exact congr (congrArg List.cons hhead) hrest

/-- C8: on a subnetwork whose stake vector is all zero (its sum is 0),
running an epoch leaves the rank, consensus, incentive and dividends
vectors at zero, and the bond matrix is exactly the old one decayed
entry-wise — provided the bond and weight matrices have one row per
slot and matching row lengths (anything else is an upstream
internal-consistency fault per §4.3). -/
theorem epoch_zero_stake (minW maxMin alpha thresh totE : Nat)
    (stakeVec : List Nat) (W B : List (List Nat))
    (hsum : stakeVec.sum = 0)
    (hWlen : W.length = stakeVec.length)
    (hBlen : B.length = stakeVec.length)
    (hrows : ∀ p ∈ List.zip B W, p.1.length = p.2.length) :
    (∀ x ∈ (run_epoch minW maxMin alpha thresh totE stakeVec W B).rank,
      x = 0) ∧
    (∀ x ∈ (run_epoch minW maxMin alpha thresh totE stakeVec W B).consensus,
      x = 0) ∧
    (∀ x ∈ (run_epoch minW maxMin alpha thresh totE stakeVec W B).incentive,
      x = 0) ∧
    (∀ x ∈ (run_epoch minW maxMin alpha thresh totE stakeVec W B).dividends,
      x = 0) ∧
    (run_epoch minW maxMin alpha thresh totE stakeVec W B).bonds
      = B.map (List.map (bond_decay alpha)) := by
  have hS : normalize_vec stakeVec = stakeVec.map (fun _ => 0) := by
    rw [normalize_vec, if_pos hsum]
  have hrank : ∀ x ∈ epoch_rank (normalize_vec stakeVec)
      (W.map (prep_row minW maxMin)), x = 0 := by
    rw [hS]
    exact epoch_rank_zero stakeVec (W.map (prep_row minW maxMin))
  have hcons : ∀ x ∈ epoch_consensus thresh
      (epoch_rank (normalize_vec stakeVec) (W.map (prep_row minW maxMin)))
      (epoch_trust (normalize_vec stakeVec) (W.map (prep_row minW maxMin))),
      x = 0 :=
    epoch_consensus_zero thresh _ _ hrank
  have hinc : ∀ x ∈ normalize_vec (epoch_consensus thresh
      (epoch_rank (normalize_vec stakeVec) (W.map (prep_row minW maxMin)))
      (epoch_trust (normalize_vec stakeVec) (W.map (prep_row minW maxMin)))),
      x = 0 :=
    normalize_vec_zero_of_all_zero _ hcons
  have hrowsLe : ∀ p ∈ List.zip B (W.map (prep_row minW maxMin)),
      p.1.length ≤ p.2.length := by
    intro p hp
    rw [List.zip_map_right] at hp
    obtain ⟨q, hq, hpq⟩ := List.mem_map.mp hp
    obtain ⟨a, b⟩ := q
    rw [← hpq]
    show a.length ≤ (prep_row minW maxMin b).length
    rw [prep_row_length]
    exact Nat.le_of_eq (hrows (a, b) hq)
  have hbonds : epoch_bonds alpha (normalize_vec stakeVec) B
      (W.map (prep_row minW maxMin))
      = B.map (List.map (bond_decay alpha)) := by
    rw [hS]
    exact epoch_bonds_zero alpha stakeVec B (W.map (prep_row minW maxMin))
      hBlen (by rw [List.length_map]; exact hWlen) hrowsLe
  exact ⟨hrank, hcons, hinc,
    epoch_dividends_zero _ _ hinc, hbonds⟩

/-- Witness for C8 at a concrete subnetwork: two slots, stake `[0, 0]`,
nontrivial weight and bond matrices; the epoch's rank, consensus,
incentive and dividends are all zero and the bonds are the decayed old
bonds. -/
theorem epoch_zero_stake_witness :
    (∀ x ∈ (run_epoch 0 5 13107 30000 1000 [0, 0] [[3, 4], [5, 6]]
      [[10, 20], [30, 40]]).rank, x = 0) ∧
    (∀ x ∈ (run_epoch 0 5 13107 30000 1000 [0, 0] [[3, 4], [5, 6]]
      [[10, 20], [30, 40]]).consensus, x = 0) ∧
    (∀ x ∈ (run_epoch 0 5 13107 30000 1000 [0, 0] [[3, 4], [5, 6]]
      [[10, 20], [30, 40]]).incentive, x = 0) ∧
    (∀ x ∈ (run_epoch 0 5 13107 30000 1000 [0, 0] [[3, 4], [5, 6]]
      [[10, 20], [30, 40]]).dividends, x = 0) ∧
    (run_epoch 0 5 13107 30000 1000 [0, 0] [[3, 4], [5, 6]]
      [[10, 20], [30, 40]]).bonds
      = [[10, 20], [30, 40]].map (List.map (bond_decay 13107)) :=
  epoch_zero_stake 0 5 13107 30000 1000 [0, 0] [[3, 4], [5, 6]]
    [[10, 20], [30, 40]] (by decide) (by decide) (by decide) (by decide)

end Paratensor
